import Mathlib

/-!
Verification development for the browser-side admin console of
misaka_danmu_server (static JS frontend).

The JavaScript sources are shallowly embedded as pure Lean functions:
DOM lists become Lean lists, fetch responses become explicit data, and
thrown exceptions become explicit result constructors.  Each definition
is a direct translation of one function of the source tree; the file
then proves or refutes the frozen behavioural claims about them.
-/

/-! ## JSON values (payloads received from and sent to the backend) -/

/-- JSON value as produced by JSON.parse in the browser.  Numbers are
modelled as integers (the claims never involve fractional payloads). -/
inductive Json where
  | null : Json
  | bool : Bool → Json
  | num : Int → Json
  | str : String → Json
  | arr : List Json → Json
  | obj : List (String × Json) → Json
deriving Repr

/-- Minimal JSON string escaping used by JSON.stringify (quote,
backslash and the common control characters). -/
def escapeJsonChar (c : Char) : String :=
  if c = '"' then "\\\""
  else if c = '\\' then "\\\\"
  else if c = '\n' then "\\n"
  else if c = '\t' then "\\t"
  else if c = '\r' then "\\r"
  else String.singleton c

/-- Escape a whole string for JSON.stringify. -/
def escapeJsonString (s : String) : String :=
  String.join (s.data.map escapeJsonChar)

mutual

/-- Model of JSON.stringify as used by api.js when it serializes an
error payload into an error message. -/
def stringify : Json → String
  | .null => "null"
  | .bool true => "true"
  | .bool false => "false"
  | .num n => toString n
  | .str s => "\"" ++ escapeJsonString s ++ "\""
  | .arr xs => "[" ++ stringifyArr xs ++ "]"
  | .obj fs => "\x7b" ++ stringifyObj fs ++ "\x7d"

/-- Comma-separated serialization of a JSON array body. -/
def stringifyArr : List Json → String
  | [] => ""
  | [x] => stringify x
  | x :: y :: xs => stringify x ++ "," ++ stringifyArr (y :: xs)

/-- Comma-separated serialization of a JSON object body. -/
def stringifyObj : List (String × Json) → String
  | [] => ""
  | [(k, v)] => "\"" ++ escapeJsonString k ++ "\":" ++ stringify v
  | (k, v) :: f :: fs =>
      "\"" ++ escapeJsonString k ++ "\":" ++ stringify v ++ "," ++ stringifyObj (f :: fs)

end

/-- JavaScript truthiness of a JSON value (null, false, 0 and the empty
string are falsy; arrays and objects are always truthy). -/
def truthy : Json → Bool
  | .null => false
  | .bool b => b
  | .num n => decide (n ≠ 0)
  | .str s => decide (s ≠ "")
  | .arr _ => true
  | .obj _ => true

mutual

/-- Model of JavaScript String(v) coercion, which produces the message
of an Error constructed from a non-string value.  Arrays stringify by
joining their elements with commas, objects give "[object Object]". -/
def jsToMessage : Json → String
  | .null => "null"
  | .bool true => "true"
  | .bool false => "false"
  | .num n => toString n
  | .str s => s
  | .arr xs => jsArrJoin xs
  | .obj _ => "[object Object]"

/-- Array.prototype.toString joins with commas, rendering null elements
as the empty string. -/
def jsArrJoin : List Json → String
  | [] => ""
  | [.null] => ""
  | [x] => jsToMessage x
  | .null :: y :: xs => "," ++ jsArrJoin (y :: xs)
  | x :: y :: xs => jsToMessage x ++ "," ++ jsArrJoin (y :: xs)

end

/-- Property lookup on a parsed JSON object: duplicate keys in the
source text are resolved by JSON.parse keeping the last occurrence. -/
def getField (fs : List (String × Json)) (k : String) : Option Json :=
  (fs.reverse.find? (fun p => p.1 == k)).map (·.2)

/-! ## The HTTP response data seen by apiFetch -/

/-- Body of an HTTP response.  jsonBody j stands for a body whose text
is the serialization of j (so response.json() succeeds and yields j);
rawBody s stands for body text s that does not parse as JSON (the empty
string is such a body). -/
inductive BodyData where
  | jsonBody : Json → BodyData
  | rawBody : String → BodyData
deriving Repr

/-- Text of the response body, as returned by response.text(). -/
def bodyText : BodyData → String
  | .jsonBody j => stringify j
  | .rawBody s => s

/-- Result of response.json() / JSON.parse on the body text. -/
def parseJsonBody : BodyData → Option Json
  | .jsonBody j => some j
  | .rawBody _ => none

/-- An HTTP response as observed by the client: status code and body. -/
structure HttpResponse where
  status : Nat
  body : BodyData
deriving Repr

/-- Outcome of an awaited apiFetch call: a resolved JSON value, a thrown
Error with its message, or a SyntaxError from JSON.parse rethrown on the
success path (its message is produced by the JS engine, not the code). -/
inductive FetchResult where
  | success : Json → FetchResult
  | thrown : String → FetchResult
  | jsonSyntaxError : FetchResult
deriving Repr

/-- Error-message computation of api.js lines 18-27: try to parse the
body as JSON and use its detail field if truthy, otherwise the
serialized JSON.  When response.json() rejects (non-JSON body), the
body stream has already been disturbed by that read, so the catch's
await response.text() rejects with a TypeError and its .catch keeps
the initial HTTP error! status message.  A JSON body null makes
errorData.detail throw a TypeError after a successful read, so that
catch path ends in the same already-consumed-stream fallback. -/
def errorMessageFor (r : HttpResponse) : String :=
  match parseJsonBody r.body with
  | some j =>
    match j with
    | .obj fs =>
      match getField fs "detail" with
      | some d => if truthy d then jsToMessage d else stringify j
      | none => stringify j
    | .null => "HTTP error! status: " ++ toString r.status
    | _ => stringify j
  | none => "HTTP error! status: " ++ toString r.status

/-- Shallow embedding of apiFetch from src/static/js/api.js: a 401
throws a fixed session-expired message; any other non-2xx status throws
the computed error message; a 204 or an empty body resolves to the empty
object; otherwise the body is parsed as JSON. -/
def apiFetch (r : HttpResponse) : FetchResult :=
  if r.status = 401 then .thrown "会话已过期或无效，请重新登录。"
  else if ¬ (200 ≤ r.status ∧ r.status ≤ 299) then .thrown (errorMessageFor r)
  else if r.status = 204 then .success (Json.obj [])
  else if bodyText r.body = "" then .success (Json.obj [])
  else
    match parseJsonBody r.body with
    | some j => .success j
    | none => .jsonSyntaxError

/-! ## Client auth state (auth module, src/unnamed/part_006) -/

/-- The client-side authentication state touched by login/logout: the
token stored under the localStorage key danmu_api_token and whether the
auth view (as opposed to the main view) is shown. -/
structure ClientState where
  token : Option String
  authViewShown : Bool
deriving Repr, DecidableEq

/-- apiFetch (api.js) performs no client-side state change: on the 401
path, lines 13-16 only throw (the comment in the source says the logout
should happen in the caller); the token is read for the request header
but never written, and the view is untouched. -/
def apiFetchCall (st : ClientState) (r : HttpResponse) : ClientState × FetchResult :=
  (st, apiFetch r)

/-- Model of logout (part_006 lines 49-60): whatever the logout API call
returns, the finally block clears the token, removes the stored key and
shows the auth view. -/
def logout (_st : ClientState) : ClientState :=
  { token := none, authViewShown := true }

/-- Check of part_006 line 70: the fetched user object must be truthy
and carry a truthy username property, otherwise checkLogin throws. -/
def hasValidUsername : Json → Bool
  | .obj fs =>
    match getField fs "username" with
    | some v => truthy v
    | none => false
  | _ => false

/-- Model of checkLogin (part_006 lines 62-82), parameterized by the
response to the /api/ui/auth/users/me request: with no stored token the
auth view is shown; a valid user hides it; any apiFetch failure (401
included) runs logout. -/
def checkLogin (st : ClientState) (meResp : HttpResponse) : ClientState :=
  match st.token with
  | none => { st with authViewShown := true }
  | some _ =>
    match apiFetch meResp with
    | .success user =>
        if hasValidUsername user then { st with authViewShown := false }
        else logout st
    | _ => logout st

/-- Error handler of handleSearch (home.js lines 117-128): an apiFetch
failure is surfaced with alert and the auth state is left untouched. -/
def handleSearchAuthState (st : ClientState) (r : HttpResponse) : ClientState :=
  (apiFetchCall st r).1

/-! ## Bulk import (home.js _performSeparateBulkImport / _performUnifiedBulkImport) -/

/-- One entry of originalSearchResults as used by the bulk import loop
(home.js): the fields that are copied into the import payload. -/
structure SearchItem where
  provider : String
  mediaId : String
  title : String
  itemType : String
  season : Int
  imageUrl : Option String
  doubanId : Option String
  currentEpisodeIndex : Option Nat
deriving Repr, DecidableEq

/-- Body of a POST to /api/ui/import as built by the two bulk-import
loops. -/
structure ImportPayload where
  provider : String
  mediaId : String
  animeTitle : String
  payloadType : String
  season : Int
  imageUrl : Option String
  doubanId : Option String
  currentEpisodeIndex : Option Nat
  tmdbId : Option String
deriving Repr, DecidableEq

/-- Payload built for one item by _performSeparateBulkImport (home.js
lines 403-410): the item's own title, tmdb_id null. -/
def separatePayload (it : SearchItem) : ImportPayload :=
  ⟨it.provider, it.mediaId, it.title, it.itemType, it.season,
   it.imageUrl, it.doubanId, it.currentEpisodeIndex, none⟩

/-- Payload built for one item by _performUnifiedBulkImport (home.js
lines 437-445): the user-confirmed final title and TMDB id. -/
def unifiedPayload (finalTitle : String) (finalTmdbId : Option String)
    (it : SearchItem) : ImportPayload :=
  ⟨it.provider, it.mediaId, finalTitle, it.itemType, it.season,
   it.imageUrl, it.doubanId, it.currentEpisodeIndex, finalTmdbId⟩

/-- Observable step of a bulk-import run, in program order: an awaited
POST to /api/ui/import, the console handling of its outcome, the fixed
setTimeout delay, and the final alert. -/
inductive BulkAction where
  | post : ImportPayload → BulkAction
  | logSuccess : BulkAction
  | logSkipExisting : BulkAction
  | logFailure : BulkAction
  | wait : Nat → BulkAction
  | alertDone : BulkAction
deriving Repr, DecidableEq

/-- Whether pat is a prefix of the character list. -/
def charsHasPrefix : List Char → List Char → Bool
  | [], _ => true
  | _ :: _, [] => false
  | p :: ps, c :: cs => p = c && charsHasPrefix ps cs

/-- Whether pat occurs as a contiguous run inside the character
list. -/
def charsContains (pat : List Char) : List Char → Bool
  | [] => charsHasPrefix pat []
  | c :: rest => charsHasPrefix pat (c :: rest) || charsContains pat rest

/-- True when the JavaScript expression a.includes(b) holds (b occurs as
a substring of a). -/
def jsIncludes (a b : String) : Bool := charsContains b.data a.data

/-- Catch block of the per-item try (home.js lines 412-418): an error
whose message mentions an already-existing source is only warned about,
any other failure is logged; a resolved request logs success.  Neither
branch issues another request. -/
def handleItemResponse : FetchResult → BulkAction
  | .success _ => .logSuccess
  | .thrown msg =>
      if jsIncludes msg "该数据源已存在于弹幕库中" then .logSkipExisting
      else .logFailure
  | .jsonSyntaxError => .logFailure

/-- The for-of loop shared by both bulk import modes: for each payload,
one awaited POST, the handling of its outcome, then an awaited 200 ms
setTimeout, before the next item is touched. -/
def bulkImportLoop (outcome : ImportPayload → FetchResult) :
    List ImportPayload → List BulkAction
  | [] => []
  | p :: rest =>
      .post p :: handleItemResponse (outcome p) :: .wait 200 ::
        bulkImportLoop outcome rest

/-- Shallow embedding of _performSeparateBulkImport (home.js lines
395-427): run the loop over the selected items with per-item payloads,
then alert that the tasks were submitted.  outcome gives the response
of each awaited POST. -/
def performSeparateBulkImport (outcome : ImportPayload → FetchResult)
    (items : List SearchItem) : List BulkAction :=
  bulkImportLoop outcome (items.map separatePayload) ++ [.alertDone]

/-- Shallow embedding of _performUnifiedBulkImport (home.js lines
429-462): same loop with the unified title/TMDB id in every payload. -/
def performUnifiedBulkImport (outcome : ImportPayload → FetchResult)
    (finalTitle : String) (finalTmdbId : Option String)
    (items : List SearchItem) : List BulkAction :=
  bulkImportLoop outcome (items.map (unifiedPayload finalTitle finalTmdbId)) ++ [.alertDone]

/-- The payload of a POST step, none for every other step. -/
def postOf? : BulkAction → Option ImportPayload
  | .post p => some p
  | _ => none

/-- The POSTs issued during a bulk-import run, in order. -/
def postsOf (trace : List BulkAction) : List ImportPayload :=
  trace.filterMap postOf?

/-! ## Polling timers (home.js log polling, tasks.js task polling) -/

/-- The two module-level interval timers involved in the claim: the
value is the period in milliseconds of the registered interval, none
when no interval is registered. -/
structure PollingState where
  logRefreshInterval : Option Nat
  taskLoadInterval : Option Nat
deriving Repr, DecidableEq

/-- startLogRefresh (home.js lines 74-78): clear any previous interval
and register refreshServerLogs every 3000 ms (an immediate refresh also
runs, which does not affect the registered period). -/
def startLogRefresh (st : PollingState) : PollingState :=
  { st with logRefreshInterval := some 3000 }

/-- stopLogRefresh (home.js lines 80-83): clear the interval. -/
def stopLogRefresh (st : PollingState) : PollingState :=
  { st with logRefreshInterval := none }

/-- The auth:status-changed listener of home.js lines 43-49. -/
def homeAuthStatusChanged (loggedIn : Bool) (st : PollingState) : PollingState :=
  if loggedIn then startLogRefresh st else stopLogRefresh st

/-- The auth:status-changed listener of tasks.js lines 348-355: on
login, clear any previous interval and poll loadAndRenderTasks every
2000 ms; on logout, clear the interval. -/
def tasksAuthStatusChanged (loggedIn : Bool) (st : PollingState) : PollingState :=
  if loggedIn then { st with taskLoadInterval := some 2000 }
  else { st with taskLoadInterval := none }

/-- Both document-level listeners run on one auth:status-changed
event; they touch disjoint fields, so the order is immaterial. -/
def onAuthStatusChanged (loggedIn : Bool) (st : PollingState) : PollingState :=
  tasksAuthStatusChanged loggedIn (homeAuthStatusChanged loggedIn st)

/-- Modelled from the spec: the auth module dispatches
auth:status-changed with loggedIn true on a successful login and
loggedIn false on logout (spec section 5: polling is started/stopped on
login/logout).  The dispatching auth module of this generation of the
code is not among the provided sources; only the two listeners are. -/
inductive AuthEvent where
  | login : AuthEvent
  | loggedOut : AuthEvent
deriving Repr, DecidableEq

/-- Effect of one dispatched auth event on the two polling timers. -/
def dispatchAuth : AuthEvent → PollingState → PollingState
  | .login, st => onAuthStatusChanged true st
  | .loggedOut, st => onAuthStatusChanged false st

/-- Effect of a sequence of dispatched auth events. -/
def runAuthEvents (evs : List AuthEvent) (st : PollingState) : PollingState :=
  evs.foldl (fun s e => dispatchAuth e s) st

/-- A poll can only fire while the corresponding interval is
registered. -/
def anyPollRegistered (st : PollingState) : Bool :=
  st.logRefreshInterval.isSome || st.taskLoadInterval.isSome

/-! ## Change-password form (part_007 handleChangePassword) -/

/-- Outcome of one submission of the change-password form: either an
inline error message with no request, or a PUT to the change-password
endpoint with the given old/new password payload. -/
inductive PwOutcome where
  | inlineError : String → PwOutcome
  | putRequest : String → String → PwOutcome
deriving Repr, DecidableEq

/-- Shallow embedding of handleChangePassword (part_007 lines 46-78,
identical validation in main.js lines 355-393): reject a new password
shorter than 8, reject a mismatched confirmation, otherwise PUT the
old/new password pair. -/
def handleChangePassword (oldPassword newPassword confirmPassword : String) : PwOutcome :=
  if newPassword.length < 8 then .inlineError "新密码至少需要8位。"
  else if newPassword ≠ confirmPassword then .inlineError "两次输入的新密码不一致。"
  else .putRequest oldPassword newPassword

/-! ## Library edit action (home.js window.handleAction, edit branch) -/

/-- JavaScript parseInt(s, 10): skip leading whitespace, read an
optional sign and then leading decimal digits; NaN (none) when no digit
follows. -/
def isAsciiDigit (c : Char) : Bool := decide ('0' ≤ c ∧ c ≤ '9')

/-- Whitespace for the purposes of JS regex \s and parseInt trimming
(ASCII whitespace plus the common Unicode space characters). -/
def isJsSpace (c : Char) : Bool :=
  [' ', '\t', '\n', '\r', '\x0b', '\x0c', '\u00A0', '\u1680',
   '\u2000', '\u2001', '\u2002', '\u2003', '\u2004', '\u2005', '\u2006',
   '\u2007', '\u2008', '\u2009', '\u200A', '\u2028', '\u2029', '\u202F',
   '\u205F', '\u3000', '\uFEFF'].contains c

/-- Numeric value of a list of decimal digits. -/
def digitsToNat (ds : List Char) : Nat :=
  ds.foldl (fun a c => a * 10 + (c.toNat - '0'.toNat)) 0

/-- Leading digit run of a character list, none when it is empty. -/
def parseDigitRun (cs : List Char) : Option Nat :=
  let ds := cs.takeWhile isAsciiDigit
  if ds.isEmpty then none else some (digitsToNat ds)

/-- Model of parseInt(s, 10). -/
def parseIntJs (s : String) : Option Int :=
  let cs := s.data.dropWhile isJsSpace
  match cs with
  | '-' :: rest => (parseDigitRun rest).map (fun n => -(n : Int))
  | '+' :: rest => (parseDigitRun rest).map (fun n => (n : Int))
  | _ => (parseDigitRun cs).map (fun n => (n : Int))

/-- Outcome of the edit branch of window.handleAction (home.js lines
1101-1122): cancelled when either prompt returns null, an alert (and no
request) for an invalid season, otherwise a PUT updating the anime. -/
inductive EditOutcome where
  | cancelled : EditOutcome
  | alertInvalidSeason : EditOutcome
  | putUpdate : String → Int → EditOutcome
deriving Repr, DecidableEq

/-- Shallow embedding of the edit branch of window.handleAction: the
two prompt results are passed in; the season string goes through
parseInt and is rejected when NaN or below 1. -/
def handleActionEdit (newTitle : Option String) (newSeasonStr : Option String) : EditOutcome :=
  match newTitle with
  | none => .cancelled
  | some t =>
    match newSeasonStr with
    | none => .cancelled
    | some s =>
      match parseIntJs s with
      | none => .alertInvalidSeason
      | some n => if n < 1 then .alertInvalidSeason else .putUpdate t n

/-! ## Danmaku source settings (sources.js) -/

/-- One list item of the danmaku source list: the provider name and the
enabled flag exactly as stored in the DOM dataset (a string), plus the
selection state. -/
structure SourceLi where
  providerName : String
  isEnabled : String
  selected : Bool
deriving Repr, DecidableEq

/-- One entry of the settings payload sent by the save button. -/
structure ScraperSetting where
  providerName : String
  isEnabled : Bool
  displayOrder : Nat
deriving Repr, DecidableEq

/-- Shallow embedding of handleSaveDanmakuSources (sources.js lines
72-96): walk the rendered list in order and build, for the item at
0-based index i, a payload entry with display_order i+1 and is_enabled
true exactly when the dataset flag is the string true. -/
def handleSaveDanmakuSources (lis : List SourceLi) : List ScraperSetting :=
  lis.enum.map (fun p => ⟨p.2.providerName, p.2.isEnabled == "true", p.1 + 1⟩)

/-- Index of the first selected list item (querySelector li.selected
returns the first match in document order). -/
def findSelectedIdx : List SourceLi → Option Nat
  | [] => none
  | a :: rest => if a.selected then some 0 else (findSelectedIdx rest).map (· + 1)

/-- Swap the elements at positions i and i+1 of a list, leaving the
list unchanged when i+1 is out of range. -/
def swapAdjacent {α : Type} : Nat → List α → List α
  | 0, a :: b :: t => b :: a :: t
  | n + 1, a :: t => a :: swapAdjacent n t
  | _, l => l

/-- Shallow embedding of handleMoveDanmakuSource (sources.js lines
106-114): with a selected item at index i, direction up inserts it
before its previous sibling (a swap of positions i-1 and i) when one
exists, direction down inserts the next sibling before it (a swap of
positions i and i+1) when one exists; otherwise nothing happens. -/
def handleMoveDanmakuSource (direction : String) (lis : List SourceLi) : List SourceLi :=
  match findSelectedIdx lis with
  | none => lis
  | some i =>
    if direction = "up" then
      if i = 0 then lis else swapAdjacent (i - 1) lis
    else if direction = "down" then
      if i + 1 < lis.length then swapAdjacent i lis else lis
    else lis

/-! ## Running-task deletion and action buttons (tasks.js) -/

/-- The data of the selected task item read from the DOM by the delete
and pause/resume handlers. -/
structure SelectedTask where
  taskId : String
  status : String
  title : String
deriving Repr, DecidableEq

/-- Outcome of one click on the delete button. -/
inductive DeleteOutcome where
  | alertSelectFirst : DeleteOutcome
  | alertCannotDelete : DeleteOutcome
  | noAction : DeleteOutcome
  | deleteRequest : String → DeleteOutcome
deriving Repr, DecidableEq

/-- Shallow embedding of handleDeleteRunningTask (tasks.js lines
290-312): no selection alerts; a running, queued or paused status
alerts and sends nothing; otherwise the confirm dialog gates a DELETE
for the selected task id. -/
def handleDeleteRunningTask (selected : Option SelectedTask) (confirmed : Bool) : DeleteOutcome :=
  match selected with
  | none => .alertSelectFirst
  | some t =>
    if t.status = "运行中" ∨ t.status = "排队中" ∨ t.status = "已暂停" then .alertCannotDelete
    else if confirmed then .deleteRequest t.taskId
    else .noAction

/-- Enabled/disabled state of the two task action buttons. -/
structure TaskButtons where
  deleteDisabled : Bool
  pauseResumeDisabled : Bool
  pauseResumeText : String
deriving Repr, DecidableEq

/-- Shallow embedding of updateTaskActionButtons (tasks.js lines
160-181): without a selection both buttons are disabled; the delete
button is enabled exactly for the completed and failed statuses, the
pause/resume button exactly for running and paused. -/
def updateTaskActionButtons (selected : Option SelectedTask) : TaskButtons :=
  match selected with
  | none => ⟨true, true, "暂停/恢复"⟩
  | some t =>
    let isDeletable := t.status == "已完成" || t.status == "失败"
    let isPausable := t.status == "运行中"
    let isResumable := t.status == "已暂停"
    ⟨!isDeletable, !(isPausable || isResumable),
     if isPausable then "暂停" else if isResumable then "恢复" else "暂停/恢复"⟩

/-! ## Season extraction from titles (home.js parseTitleForSeason) -/

/-- ASCII lower-casing, the case folding JS regex /i performs on ASCII
letters (non-ASCII characters that would fold to ASCII are not folded
in non-unicode mode). -/
def toLowerAscii (c : Char) : Char :=
  if 'A' ≤ c ∧ c ≤ 'Z' then Char.ofNat (c.toNat + 32) else c

/-- Model of String.prototype.toUpperCase on the characters that can be
captured by the season patterns: ASCII letters and the lowercase Unicode
roman numerals U+2170..U+217B, which upper-case to U+2160..U+216B. -/
def toUpperJs (c : Char) : Char :=
  if 'a' ≤ c ∧ c ≤ 'z' then Char.ofNat (c.toNat - 32)
  else if 'ⅰ' ≤ c ∧ c ≤ 'ⅻ' then Char.ofNat (c.toNat - 16)
  else c

/-- The character class of the Chinese season patterns: the numerals
一二三四五六七八九十 and the ASCII digits. -/
def isCnNumChar (c : Char) : Bool :=
  ['一', '二', '三', '四', '五', '六', '七', '八', '九', '十'].contains c || isAsciiDigit c

/-- A Unicode roman-numeral character Ⅰ..Ⅻ, in either case (the /i flag
folds the lowercase forms onto the class). -/
def isUnicodeRomanChar (c : Char) : Bool :=
  decide (('Ⅰ' ≤ c ∧ c ≤ 'Ⅻ') ∨ ('ⅰ' ≤ c ∧ c ≤ 'ⅻ'))

/-- A JS regex word character (the \b assertion is ASCII-only). -/
def isWordChar (c : Char) : Bool :=
  isAsciiDigit c || decide ('a' ≤ c ∧ c ≤ 'z') || decide ('A' ≤ c ∧ c ≤ 'Z') || c = '_'

/-- One of the letters IVXLCDM, case-insensitively. -/
def isRomanLetterCI (c : Char) : Bool :=
  ['I', 'V', 'X', 'L', 'C', 'D', 'M'].contains (toUpperJs c)

/-- Strip a case-insensitive literal (given in lowercase) from the
front of the input. -/
def stripPrefixCI : List Char → List Char → Option (List Char)
  | [], rest => some rest
  | _ :: _, [] => none
  | a :: ps, c :: rest => if toLowerAscii c = a then stripPrefixCI ps rest else none

/-- Match the tail \s*(\d+) of the first season pattern: skip
whitespace greedily, then capture at least one digit. -/
def digitsAfterWs (cs : List Char) : Option (List Char) :=
  let cs1 := cs.dropWhile isJsSpace
  let ds := cs1.takeWhile isAsciiDigit
  if ds.isEmpty then none else some ds

/-- Attempt of the pattern (?:S|Season)\s*(\d+) with the /i flag at one
position: the alternation tries the single letter S first, then the
word Season, each followed by optional whitespace and the captured
digit run. -/
def matchP1At : List Char → Option (List Char)
  | [] => none
  | c :: rest =>
    if toLowerAscii c = 's' then
      match digitsAfterWs rest with
      | some ds => some ds
      | none =>
        match stripPrefixCI ['e', 'a', 's', 'o', 'n'] rest with
        | some rest2 => digitsAfterWs rest2
        | none => none
    else none

/-- Attempt of 第\s*([一二三四五六七八九十\d]+)\s*[季部] at one
position.  The captured class is disjoint from whitespace and from the
terminators, so the greedy capture needs no backtracking. -/
def matchP2At : List Char → Option (List Char)
  | '第' :: rest =>
    let rest1 := rest.dropWhile isJsSpace
    let cap := rest1.takeWhile isCnNumChar
    if cap.isEmpty then none
    else
      match (rest1.dropWhile isCnNumChar).dropWhile isJsSpace with
      | c :: _ => if c = '季' ∨ c = '部' then some cap else none
      | [] => none
  | _ => none

/-- Attempt of 第\s*([一二三四五六七八九十\d]+)\s*(?:部分|篇|章|幕) at
one position. -/
def matchP3At : List Char → Option (List Char)
  | '第' :: rest =>
    let rest1 := rest.dropWhile isJsSpace
    let cap := rest1.takeWhile isCnNumChar
    if cap.isEmpty then none
    else
      match (rest1.dropWhile isCnNumChar).dropWhile isJsSpace with
      | '部' :: '分' :: _ => some cap
      | '篇' :: _ => some cap
      | '章' :: _ => some cap
      | '幕' :: _ => some cap
      | _ => none
  | _ => none

/-- Attempt of \s+([Ⅰ-Ⅻ])\b with /i at one position.  The roman
character is not a word character, so the trailing \b holds exactly
when the next character exists and is a word character. -/
def matchP4At : List Char → Option (List Char)
  | [] => none
  | c :: rest =>
    if isJsSpace c then
      match rest.dropWhile isJsSpace with
      | r :: after =>
        if isUnicodeRomanChar r then
          match after with
          | w :: _ => if isWordChar w then some [r] else none
          | [] => none
        else none
      | [] => none
    else none

/-- Attempt of \s+([IVXLCDM]+)$ with /i at one position: after the
whitespace run, the rest of the string must be a nonempty run of roman
letters reaching the end. -/
def matchP5At : List Char → Option (List Char)
  | [] => none
  | c :: rest =>
    if isJsSpace c then
      let rest1 := rest.dropWhile isJsSpace
      let letters := rest1.takeWhile isRomanLetterCI
      if letters.isEmpty then none
      else if (rest1.dropWhile isRomanLetterCI).isEmpty then some letters
      else none
    else none

/-- Leftmost-match semantics of String.prototype.match: try the pattern
attempt at each position from the left and return the first capture. -/
def firstMatch (m : List Char → Option (List Char)) : List Char → Option (List Char)
  | [] => m []
  | c :: rest =>
    match m (c :: rest) with
    | some cap => some cap
    | none => firstMatch m rest

/-- A JavaScript number as produced by the season conversion: an
integer or NaN. -/
inductive JsNum where
  | int : Int → JsNum
  | nan : JsNum
deriving Repr, DecidableEq

/-- The letter-value map of romanToInt (home.js line 170);
missing keys read as undefined. -/
def romanMap : Char → Option Int
  | 'I' => some 1
  | 'V' => some 5
  | 'X' => some 10
  | 'L' => some 50
  | 'C' => some 100
  | 'D' => some 500
  | 'M' => some 1000
  | _ => none

/-- Accumulating loop of romanToInt (home.js lines 171-180): a letter
outside the map makes the JS addition produce NaN, which then absorbs
every further step; a letter smaller than its successor is subtracted,
otherwise added. -/
def romanToIntGo : List Char → JsNum → JsNum
  | [], acc => acc
  | c :: rest, acc =>
    let nxt := match rest with
      | [] => none
      | d :: _ => romanMap d
    match romanMap c, acc with
    | none, _ => romanToIntGo rest JsNum.nan
    | some _, JsNum.nan => romanToIntGo rest JsNum.nan
    | some cv, JsNum.int a =>
      match nxt with
      | some nv =>
          if cv < nv then romanToIntGo rest (JsNum.int (a - cv))
          else romanToIntGo rest (JsNum.int (a + cv))
      | none => romanToIntGo rest (JsNum.int (a + cv))

/-- Shallow embedding of romanToInt (home.js lines 169-182). -/
def romanToInt (cs : List Char) : JsNum :=
  romanToIntGo cs (JsNum.int 0)

/-- The chineseNumMap of home.js line 143: single-character keys 一..十
with values 1..10; every other captured string reads as undefined. -/
def chineseNumMap : List Char → Option Nat
  | ['一'] => some 1
  | ['二'] => some 2
  | ['三'] => some 3
  | ['四'] => some 4
  | ['五'] => some 5
  | ['六'] => some 6
  | ['七'] => some 7
  | ['八'] => some 8
  | ['九'] => some 9
  | ['十'] => some 10
  | _ => none

/-- The unicodeRomanMap of home.js line 145: single-character keys
Ⅰ..Ⅻ with values 1..12. -/
def unicodeRomanMap : List Char → Option Nat
  | ['Ⅰ'] => some 1
  | ['Ⅱ'] => some 2
  | ['Ⅲ'] => some 3
  | ['Ⅳ'] => some 4
  | ['Ⅴ'] => some 5
  | ['Ⅵ'] => some 6
  | ['Ⅶ'] => some 7
  | ['Ⅷ'] => some 8
  | ['Ⅸ'] => some 9
  | ['Ⅹ'] => some 10
  | ['Ⅺ'] => some 11
  | ['Ⅻ'] => some 12
  | _ => none

/-- Conversion of a captured numeral string (home.js lines 150-163):
an all-digit capture parses as a decimal number; otherwise the Chinese
map, then the Unicode roman map on the upper-cased capture, then
romanToInt on the upper-cased capture (which yields NaN when the
capture has no roman reading; romanToInt never throws, so the catch
branch that would fall through to the next pattern is unreachable). -/
def convertCapture (cap : List Char) : JsNum :=
  if ¬ cap.isEmpty ∧ cap.all isAsciiDigit then JsNum.int (digitsToNat cap)
  else
    match chineseNumMap cap with
    | some n => JsNum.int n
    | none =>
      match unicodeRomanMap (cap.map toUpperJs) with
      | some n => JsNum.int n
      | none => romanToInt (cap.map toUpperJs)

/-- The pattern list of home.js lines 134-141, in source order. -/
def seasonPatterns : List (List Char → Option (List Char)) :=
  [matchP1At, matchP2At, matchP3At, matchP4At, matchP5At]

/-- The for-of loop of home.js lines 147-165: the first pattern that
matches determines the result through convertCapture; when no pattern
matches the loop falls through to return 1. -/
def seasonPatternLoop : List (List Char → Option (List Char)) → List Char → JsNum
  | [], _ => JsNum.int 1
  | m :: rest, cs =>
    match firstMatch m cs with
    | some cap => convertCapture cap
    | none => seasonPatternLoop rest cs

/-- Shallow embedding of parseTitleForSeason (home.js lines 131-167):
a falsy title (null, undefined or the empty string) gives 1
immediately, otherwise the pattern loop runs on the title text. -/
def parseTitleForSeason (title : Option String) : JsNum :=
  match title with
  | none => JsNum.int 1
  | some t => if t = "" then JsNum.int 1 else seasonPatternLoop seasonPatterns t.data

/-- First capture over the whole pattern list, for stating which
pattern (if any) matched a title. -/
def firstSeasonCapture (cs : List Char) : Option (List Char) :=
  match firstMatch matchP1At cs with
  | some cap => some cap
  | none =>
    match firstMatch matchP2At cs with
    | some cap => some cap
    | none =>
      match firstMatch matchP3At cs with
      | some cap => some cap
      | none =>
        match firstMatch matchP4At cs with
        | some cap => some cap
        | none => firstMatch matchP5At cs

/-! ## Task list rendering (tasks.js renderTasks) -/

/-- One task object of the polled /api/ui/tasks payload, with task_id
as it ends up in the DOM dataset (a string). -/
structure TaskData where
  taskId : String
  title : String
  status : String
  description : String
  progress : Int
deriving Repr, DecidableEq

/-- The statusColor lookup of tasks.js lines 99-102 with its default. -/
def statusColor (s : String) : String :=
  if s = "已完成" then "var(--success-color)"
  else if s = "失败" then "var(--error-color)"
  else if s = "排队中" then "#909399"
  else if s = "运行中" then "var(--primary-color)"
  else "var(--primary-color)"

/-- The mutable content of one task-item li element. -/
structure TaskItemData where
  taskId : String
  status : String
  title : String
  description : String
  progressWidth : Int
  barColor : String
  selected : Bool
deriving Repr, DecidableEq

/-- A child li of the task list: either a non-task placeholder (list
empty, or an error entry) or a task item. -/
inductive LiKind where
  | placeholderLi : String → LiKind
  | taskItemLi : TaskItemData → LiKind
deriving Repr, DecidableEq

/-- A DOM element of the task list.  ref models JavaScript object
identity of the element node: the Map built by renderTasks stores
element references, updates mutate the referenced node in place, and
appends create nodes with fresh identities. -/
structure DomLi where
  ref : Nat
  kind : LiKind
deriving Repr, DecidableEq

/-- Whether a li carries the task-item class. -/
def isTaskItem (li : DomLi) : Bool :=
  match li.kind with
  | .taskItemLi _ => true
  | _ => false

/-- The dataset.taskId of a task-item li. -/
def liTaskId? (li : DomLi) : Option String :=
  match li.kind with
  | .taskItemLi d => some d.taskId
  | _ => none

/-- Task ids of the task items of a list, in document order. -/
def ulIds (ul : List DomLi) : List String :=
  ul.filterMap liTaskId?

/-- The entries fed to new Map(...) on tasks.js line 89: one pair
(dataset.taskId, element) per task item, in document order. -/
def mapEntries (ul : List DomLi) : List (String × Nat) :=
  ul.filterMap (fun li => (liTaskId? li).map (fun i => (i, li.ref)))

/-- Map.prototype.get: for duplicate keys the last inserted pair
wins. -/
def mapGet (entries : List (String × Nat)) (k : String) : Option Nat :=
  (entries.reverse.find? (fun e => e.1 == k)).map (·.2)

/-- Key iteration order of a JS Map: first insertion order, without
duplicates. -/
def mapKeys : List (String × Nat) → List String
  | [] => []
  | p :: rest => p.1 :: (mapKeys rest).filter (fun k => k ≠ p.1)

/-- In-place update of an existing task item (tasks.js lines 106-114):
the status text is rewritten only when it changed, the description and
the progress bar are always rewritten; the title, the selection state
and the element identity stay. -/
def updateExisting (task : TaskData) (d : TaskItemData) : TaskItemData :=
  let d1 := if d.status ≠ task.status then { d with status := task.status } else d
  { d1 with
    description := task.description
    progressWidth := task.progress
    barColor := statusColor task.status }

/-- Freshly created task item (tasks.js lines 116-130). -/
def newTaskLi (r : Nat) (task : TaskData) : DomLi :=
  ⟨r, .taskItemLi
      ⟨task.taskId, task.status, task.title, task.description,
       task.progress, statusColor task.status, false⟩⟩

/-- Update applied to the element with identity r. -/
def updateRef (task : TaskData) (r : Nat) (li : DomLi) : DomLi :=
  if li.ref = r then
    match li.kind with
    | .taskItemLi d => { li with kind := .taskItemLi (updateExisting task d) }
    | _ => li
  else li

/-- Body of the tasksToRender.forEach loop (tasks.js lines 98-132):
a task found in the pre-computed element map updates that element in
place; otherwise a new element with a fresh identity is appended. -/
def renderStep (entries : List (String × Nat)) (acc : List DomLi × Nat)
    (task : TaskData) : List DomLi × Nat :=
  match mapGet entries task.taskId with
  | some r => (acc.1.map (updateRef task r), acc.2)
  | none => (acc.1 ++ [newTaskLi acc.2 task], acc.2 + 1)

/-- Step 2 of renderTasks (lines 84-87): any child that is not a task
item (the no-tasks placeholder or an error entry) clears the whole
list. -/
def clearIfPlaceholder (ul : List DomLi) : List DomLi :=
  if ul.any (fun li => !(isTaskItem li)) then [] else ul

/-- Shallow embedding of renderTasks (tasks.js lines 77-139) on the
list of children of the task list element, threading a fresh-identity
counter for created elements: an empty input installs the single
placeholder; otherwise stale placeholders are cleared, the element map
is built, elements whose id left the input are removed, and the input
is walked to update or append. -/
def renderTasks (ul : List DomLi) (fresh : Nat) (tasks : List TaskData) :
    List DomLi × Nat :=
  if tasks.length = 0 then ([⟨fresh, .placeholderLi "没有符合条件的任务。"⟩], fresh + 1)
  else
    let ul1 := clearIfPlaceholder ul
    let entries := mapEntries ul1
    let incoming := tasks.map (·.taskId)
    let removeRefs := (mapKeys entries).filterMap
      (fun k => if incoming.contains k then none else mapGet entries k)
    let ul2 := ul1.filter (fun li => !(removeRefs.contains li.ref))
    tasks.foldl (renderStep entries) (ul2, fresh)

/-- Closed form of the update part: the single task of ts aimed at
element identity r of li, if any, is applied. -/
def applyUpdates (entries : List (String × Nat)) (ts : List TaskData) (li : DomLi) : DomLi :=
  match ts.find? (fun t => mapGet entries t.taskId == some li.ref) with
  | some t => updateRef t li.ref li
  | none => li

/-- Closed form of the append part: one fresh element per new task, in
input order, with consecutive identities. -/
def appendNew (r : Nat) : List TaskData → List DomLi
  | [] => []
  | t :: rest => newTaskLi r t :: appendNew (r + 1) rest

/-! # Supporting lemmas and claim theorems -/

/-- After a logout event, any sequence of further auth events that
contains no login leaves both timers cleared. -/
theorem runAuthEvents_no_login (evs : List AuthEvent)
    (h : AuthEvent.login ∉ evs) :
    runAuthEvents evs ⟨none, none⟩ = ⟨none, none⟩ := by
  induction evs with
  | nil => rfl
  | cons e rest ih =>
    cases e with
    | login => exact (h (List.mem_cons_self _ _)).elim
    | loggedOut =>
      have h' : AuthEvent.login ∉ rest := fun hm => h (List.mem_cons_of_mem _ hm)
      calc runAuthEvents (AuthEvent.loggedOut :: rest) ⟨none, none⟩
          = runAuthEvents rest ⟨none, none⟩ := rfl
        _ = ⟨none, none⟩ := ih h'

/-- Claim C1 counterexample: when apiFetch (api.js) receives a 401
response, the call throws, but the stored danmu_api_token is not
removed and the auth view is not shown — apiFetch performs no
client-side logout, contradicting the claim that every 401 received by
apiFetch triggers one. -/
theorem c1_counterexample :
    (apiFetchCall ⟨some "tok", false⟩ ⟨401, BodyData.rawBody ""⟩).1.token = some "tok"
    ∧ (apiFetchCall ⟨some "tok", false⟩ ⟨401, BodyData.rawBody ""⟩).1.authViewShown = false
    ∧ (apiFetchCall ⟨some "tok", false⟩ ⟨401, BodyData.rawBody ""⟩).2
        = FetchResult.thrown "会话已过期或无效，请重新登录。" :=
  ⟨rfl, rfl, rfl⟩

/-- Claim C1 amended: every 401 received by apiFetch makes the call
throw (so no caller observes a successful result), but apiFetch itself
leaves the token and the view untouched; the client-side logout — token
removed, auth view shown — is performed by checkLogin when the failure
reaches its catch handler (or by an explicit logout), not by apiFetch
on every 401. -/
theorem c1_amended (st : ClientState) (r : HttpResponse) (t : String)
    (h : r.status = 401) :
    (apiFetchCall st r).2 = FetchResult.thrown "会话已过期或无效，请重新登录。"
    ∧ (apiFetchCall st r).1 = st
    ∧ checkLogin ⟨some t, false⟩ r = ⟨none, true⟩
    ∧ (logout st).token = none ∧ (logout st).authViewShown = true := by
  refine ⟨?_, rfl, ?_, rfl, rfl⟩
  · show apiFetch r = _
    simp [apiFetch, h]
  · simp [checkLogin, apiFetch, h, logout]

theorem c1_amended_witness :
    (apiFetchCall ⟨some "tok", false⟩ ⟨401, BodyData.rawBody ""⟩).2
        = FetchResult.thrown "会话已过期或无效，请重新登录。"
    ∧ (apiFetchCall ⟨some "tok", false⟩ ⟨401, BodyData.rawBody ""⟩).1 = ⟨some "tok", false⟩
    ∧ checkLogin ⟨some "tok", false⟩ ⟨401, BodyData.rawBody ""⟩ = ⟨none, true⟩
    ∧ (logout ⟨some "tok", false⟩).token = none
    ∧ (logout ⟨some "tok", false⟩).authViewShown = true :=
  c1_amended ⟨some "tok", false⟩ ⟨401, BodyData.rawBody ""⟩ "tok" rfl

/-- Claim C5: on a dispatched auth:status-changed event with loggedIn
true, the log poll is registered with period 3000 ms and the task poll
with period 2000 ms (which lies in the claimed 800 ms to 2 s range); on
loggedIn false both timers are cleared, and they stay cleared through
any further events that contain no login, so no further poll fires
until the next login. -/
theorem c5_claim (st stp : PollingState) (evs : List AuthEvent)
    (hno : AuthEvent.login ∉ evs) :
    dispatchAuth AuthEvent.login st = ⟨some 3000, some 2000⟩
    ∧ (800 ≤ 2000 ∧ 2000 ≤ 2000)
    ∧ dispatchAuth AuthEvent.loggedOut stp = ⟨none, none⟩
    ∧ anyPollRegistered (dispatchAuth AuthEvent.loggedOut stp) = false
    ∧ runAuthEvents evs (dispatchAuth AuthEvent.loggedOut st) = ⟨none, none⟩ := by
  obtain ⟨a, b⟩ := st
  obtain ⟨c, d⟩ := stp
  exact ⟨rfl, by decide, rfl, rfl, runAuthEvents_no_login evs hno⟩

theorem c5_witness :
    dispatchAuth AuthEvent.login ⟨none, none⟩ = (⟨some 3000, some 2000⟩ : PollingState)
    ∧ (800 ≤ 2000 ∧ 2000 ≤ 2000)
    ∧ dispatchAuth AuthEvent.loggedOut ⟨some 3000, some 2000⟩ = ⟨none, none⟩
    ∧ anyPollRegistered (dispatchAuth AuthEvent.loggedOut ⟨some 3000, some 2000⟩) = false
    ∧ runAuthEvents [AuthEvent.loggedOut] (dispatchAuth AuthEvent.loggedOut ⟨none, none⟩)
        = ⟨none, none⟩ :=
  c5_claim ⟨none, none⟩ ⟨some 3000, some 2000⟩ [AuthEvent.loggedOut] (by decide)

/-- Claim C6: the change-password PUT is issued exactly when the new
password has length at least 8 and matches the confirmation; otherwise
one of the two inline error messages is shown and no request is sent. -/
theorem c6_claim (oldP newP confirmP : String) :
    ((∃ a b, handleChangePassword oldP newP confirmP = PwOutcome.putRequest a b)
        ↔ (8 ≤ newP.length ∧ newP = confirmP))
    ∧ (8 ≤ newP.length → newP = confirmP →
        handleChangePassword oldP newP confirmP = PwOutcome.putRequest oldP newP)
    ∧ (newP.length < 8 →
        handleChangePassword oldP newP confirmP = PwOutcome.inlineError "新密码至少需要8位。")
    ∧ (8 ≤ newP.length → newP ≠ confirmP →
        handleChangePassword oldP newP confirmP = PwOutcome.inlineError "两次输入的新密码不一致。") := by
  refine ⟨⟨?_, ?_⟩, ?_, ?_, ?_⟩
  · rintro ⟨a, b, hab⟩
    unfold handleChangePassword at hab
    split_ifs at hab with h1 h2
    exact ⟨by omega, not_not.mp h2⟩
  · rintro ⟨h1, h2⟩
    refine ⟨oldP, newP, ?_⟩
    unfold handleChangePassword
    rw [if_neg (show ¬ newP.length < 8 by omega), if_neg (not_not_intro h2)]
  · intro h1 h2
    unfold handleChangePassword
    rw [if_neg (show ¬ newP.length < 8 by omega), if_neg (not_not_intro h2)]
  · intro h1
    unfold handleChangePassword
    rw [if_pos h1]
  · intro h1 h2
    unfold handleChangePassword
    rw [if_neg (show ¬ newP.length < 8 by omega), if_pos h2]

theorem c6_witness :
    handleChangePassword "old" "12345678" "12345678" = PwOutcome.putRequest "old" "12345678" :=
  (c6_claim "old" "12345678" "12345678").2.1 (by decide) rfl

/-- Claim C7: the library edit action issues the PUT updating the anime
exactly when the entered season string parses (parseInt, radix 10) to
an integer of at least 1; a NaN parse or a value below 1 produces the
alert and no request, and a cancelled prompt produces nothing. -/
theorem c7_claim (t s : String) :
    (∀ n : Int, parseIntJs s = some n → 1 ≤ n →
        handleActionEdit (some t) (some s) = EditOutcome.putUpdate t n)
    ∧ (parseIntJs s = none →
        handleActionEdit (some t) (some s) = EditOutcome.alertInvalidSeason)
    ∧ (∀ n : Int, parseIntJs s = some n → n < 1 →
        handleActionEdit (some t) (some s) = EditOutcome.alertInvalidSeason)
    ∧ (∀ (title : String) (n : Int),
        handleActionEdit (some t) (some s) = EditOutcome.putUpdate title n →
        title = t ∧ parseIntJs s = some n ∧ 1 ≤ n)
    ∧ handleActionEdit none (some s) = EditOutcome.cancelled
    ∧ handleActionEdit (some t) none = EditOutcome.cancelled := by
  refine ⟨?_, ?_, ?_, ?_, rfl, rfl⟩
  · intro n hp hn
    simp [handleActionEdit, hp, show ¬ n < 1 by omega]
  · intro hp
    simp [handleActionEdit, hp]
  · intro n hp hn
    simp [handleActionEdit, hp, hn]
  · intro title n h
    cases hp : parseIntJs s with
    | none =>
      simp [handleActionEdit, hp] at h
    | some m =>
      simp only [handleActionEdit, hp] at h
      by_cases hm : m < 1
      · rw [if_pos hm] at h; simp at h
      · rw [if_neg hm] at h
        simp at h
        obtain ⟨h1, h2⟩ := h
        exact ⟨h1.symm, by rw [h2], by omega⟩

theorem c7_witness :
    handleActionEdit (some "某作品") (some "3") = EditOutcome.putUpdate "某作品" 3 :=
  (c7_claim "某作品" "3").1 3 rfl (by decide)

/-- Claim C10: a DELETE for a running-tasks entry is issued only for a
selected task whose status is none of 运行中, 排队中, 已暂停; for those
three statuses the handler alerts and sends nothing, and the delete
button is enabled exactly for 已完成 and 失败. -/
theorem c10_claim (sel : Option SelectedTask) (confirmed : Bool) (t : SelectedTask) :
    (∀ id, handleDeleteRunningTask sel confirmed = DeleteOutcome.deleteRequest id →
      ∃ u, sel = some u ∧ u.taskId = id
        ∧ ¬(u.status = "运行中" ∨ u.status = "排队中" ∨ u.status = "已暂停"))
    ∧ ((t.status = "运行中" ∨ t.status = "排队中" ∨ t.status = "已暂停") →
        handleDeleteRunningTask (some t) confirmed = DeleteOutcome.alertCannotDelete)
    ∧ ((updateTaskActionButtons (some t)).deleteDisabled = false
        ↔ (t.status = "已完成" ∨ t.status = "失败"))
    ∧ (updateTaskActionButtons none).deleteDisabled = true := by
  refine ⟨?_, ?_, ?_, rfl⟩
  · intro id h
    cases sel with
    | none => simp [handleDeleteRunningTask] at h
    | some u =>
      simp only [handleDeleteRunningTask] at h
      by_cases hbad : u.status = "运行中" ∨ u.status = "排队中" ∨ u.status = "已暂停"
      · rw [if_pos hbad] at h
        simp at h
      · rw [if_neg hbad] at h
        cases confirmed with
        | false => simp at h
        | true =>
          simp at h
          exact ⟨u, rfl, h, hbad⟩
  · intro hbad
    simp only [handleDeleteRunningTask]
    rw [if_pos hbad]
  · simp [updateTaskActionButtons]
    tauto

theorem c10_witness :
    handleDeleteRunningTask (some ⟨"1", "运行中", "T"⟩) true = DeleteOutcome.alertCannotDelete :=
  (c10_claim (some ⟨"1", "运行中", "T"⟩) true ⟨"1", "运行中", "T"⟩).2.1 (Or.inl rfl)

/-- A bulk-import step other than a POST never carries a payload. -/
theorem postOf?_handleItemResponse (res : FetchResult) :
    postOf? (handleItemResponse res) = none := by
  cases res with
  | success j => rfl
  | thrown msg =>
    cases h : jsIncludes msg "该数据源已存在于弹幕库中" <;>
      simp [handleItemResponse, h, postOf?]
  | jsonSyntaxError => rfl

/-- The bulk-import loop in closed form: three steps per payload. -/
theorem bulkImportLoop_eq_flatMap (outcome : ImportPayload → FetchResult)
    (ps : List ImportPayload) :
    bulkImportLoop outcome ps
      = ps.flatMap (fun p =>
          [BulkAction.post p, handleItemResponse (outcome p), BulkAction.wait 200]) := by
  induction ps with
  | nil => rfl
  | cons p rest ih => simp [bulkImportLoop, ih]

/-- A POST step carries its payload. -/
theorem postOf?_post (p : ImportPayload) : postOf? (BulkAction.post p) = some p := rfl

/-- A wait step carries no payload. -/
theorem postOf?_wait (n : Nat) : postOf? (BulkAction.wait n) = none := rfl

/-- The POSTs of the loop are exactly its payloads, in order. -/
theorem postsOf_bulkImportLoop (outcome : ImportPayload → FetchResult)
    (ps : List ImportPayload) :
    postsOf (bulkImportLoop outcome ps) = ps := by
  induction ps with
  | nil => rfl
  | cons p rest ih =>
    simp only [bulkImportLoop, postsOf, List.filterMap_cons,
      postOf?_handleItemResponse, postOf?_post, postOf?_wait]
    exact congrArg (fun l => p :: l) ih

/-- Post extraction distributes over trace concatenation. -/
theorem postsOf_append (a b : List BulkAction) :
    postsOf (a ++ b) = postsOf a ++ postsOf b := by
  simp [postsOf, List.filterMap_append]

/-- Mapping then flat-mapping composes pointwise. -/
theorem flatMap_map_compose {α β γ : Type} (g : α → β) (f : β → List γ) (l : List α) :
    (l.map g).flatMap f = l.flatMap (fun a => f (g a)) := by
  induction l with
  | nil => rfl
  | cons a rest ih => simp [ih]

/-- Claim C2: in both bulk-import modes the loop issues exactly one
POST to /api/ui/import per selected item, in list order, with the
outcome handling and a fixed 200 ms wait between one item's request and
the next, and the sequence of POSTs does not depend on the per-request
outcomes — a failed item is logged and never retried. -/
theorem c2_claim (items : List SearchItem)
    (outcome outcomeB : ImportPayload → FetchResult)
    (finalTitle : String) (finalTmdbId : Option String) (hne : items ≠ []) :
    postsOf (performSeparateBulkImport outcome items) = items.map separatePayload
    ∧ postsOf (performUnifiedBulkImport outcome finalTitle finalTmdbId items)
        = items.map (unifiedPayload finalTitle finalTmdbId)
    ∧ performSeparateBulkImport outcome items
        = items.flatMap (fun it =>
            [BulkAction.post (separatePayload it),
             handleItemResponse (outcome (separatePayload it)),
             BulkAction.wait 200]) ++ [BulkAction.alertDone]
    ∧ performUnifiedBulkImport outcome finalTitle finalTmdbId items
        = items.flatMap (fun it =>
            [BulkAction.post (unifiedPayload finalTitle finalTmdbId it),
             handleItemResponse (outcome (unifiedPayload finalTitle finalTmdbId it)),
             BulkAction.wait 200]) ++ [BulkAction.alertDone]
    ∧ postsOf (performSeparateBulkImport outcome items)
        = postsOf (performSeparateBulkImport outcomeB items)
    ∧ postsOf (performUnifiedBulkImport outcome finalTitle finalTmdbId items)
        = postsOf (performUnifiedBulkImport outcomeB finalTitle finalTmdbId items) := by
  have hsep : ∀ oc : ImportPayload → FetchResult,
      postsOf (performSeparateBulkImport oc items) = items.map separatePayload := by
    intro oc
    unfold performSeparateBulkImport
    rw [postsOf_append, postsOf_bulkImportLoop]
    simp [postsOf, postOf?]
  have huni : ∀ oc : ImportPayload → FetchResult,
      postsOf (performUnifiedBulkImport oc finalTitle finalTmdbId items)
        = items.map (unifiedPayload finalTitle finalTmdbId) := by
    intro oc
    unfold performUnifiedBulkImport
    rw [postsOf_append, postsOf_bulkImportLoop]
    simp [postsOf, postOf?]
  refine ⟨hsep outcome, huni outcome, ?_, ?_, ?_, ?_⟩
  · unfold performSeparateBulkImport
    rw [bulkImportLoop_eq_flatMap, flatMap_map_compose]
  · unfold performUnifiedBulkImport
    rw [bulkImportLoop_eq_flatMap, flatMap_map_compose]
  · rw [hsep outcome, hsep outcomeB]
  · rw [huni outcome, huni outcomeB]

theorem c2_witness :
    postsOf (performSeparateBulkImport (fun _ => FetchResult.thrown "该数据源已存在于弹幕库中")
        [⟨"bilibili", "m1", "某作品", "tv_series", 1, none, none, none⟩])
      = [⟨"bilibili", "m1", "某作品", "tv_series", 1, none, none, none⟩].map separatePayload :=
  (c2_claim [⟨"bilibili", "m1", "某作品", "tv_series", 1, none, none, none⟩]
    (fun _ => FetchResult.thrown "该数据源已存在于弹幕库中")
    (fun _ => FetchResult.success (Json.obj [])) "最终名称" none
    (List.cons_ne_nil _ _)).1

/-- The pattern loop of parseTitleForSeason resolves to the first
matching pattern of the five, in source order. -/
theorem seasonPatternLoop_eq (cs : List Char) :
    seasonPatternLoop seasonPatterns cs
      = match firstSeasonCapture cs with
        | some cap => convertCapture cap
        | none => JsNum.int 1 := by
  simp only [seasonPatternLoop, seasonPatterns, firstSeasonCapture]
  cases firstMatch matchP1At cs <;>
    cases firstMatch matchP2At cs <;>
      cases firstMatch matchP3At cs <;>
        cases firstMatch matchP4At cs <;>
          cases firstMatch matchP5At cs <;> rfl

/-- Claim C3 counterexample: the title 第十一季 matches the Chinese
season pattern with capture 十一, which is neither an all-digit string
nor a key of any conversion map, so romanToInt on it yields NaN — the
function returns NaN, not a season number and not the default 1, so the
claim as stated fails on this title. -/
theorem c3_counterexample :
    parseTitleForSeason (some "第十一季") = JsNum.nan
    ∧ JsNum.nan ≠ JsNum.int 1 := ⟨by decide, by decide⟩

/-- Claim C3 amended: the extraction returns the value of the first
matching pattern among S/Season digits, 第X季/部, 第X部分/篇/章/幕, a
Unicode roman numeral followed by a word character, and a trailing
ASCII roman numeral — converting the capture via digits, the Chinese
map (single numerals 一..十 only), the Unicode roman map, or romanToInt,
the last of which yields NaN for captures with no roman reading (such
as 十一 or mixed digit/numeral strings); it returns 1 for every title
(null or empty included) that matches no pattern. -/
theorem c3_amended (t : String) :
    parseTitleForSeason none = JsNum.int 1
    ∧ parseTitleForSeason (some "") = JsNum.int 1
    ∧ parseTitleForSeason (some t)
        = (if t = "" then JsNum.int 1
           else
             match firstSeasonCapture t.data with
             | some cap => convertCapture cap
             | none => JsNum.int 1)
    ∧ convertCapture ['0', '2'] = JsNum.int 2
    ∧ convertCapture ['十'] = JsNum.int 10
    ∧ convertCapture ['Ⅻ'] = JsNum.int 12
    ∧ convertCapture ['i', 'i'] = JsNum.int 2
    ∧ convertCapture ['十', '一'] = JsNum.nan
    ∧ parseTitleForSeason (some "进击的巨人 Season 2") = JsNum.int 2
    ∧ parseTitleForSeason (some "某作品 S3") = JsNum.int 3
    ∧ parseTitleForSeason (some "某作品 第二季") = JsNum.int 2
    ∧ parseTitleForSeason (some "某作品 第3部") = JsNum.int 3
    ∧ parseTitleForSeason (some "某作品 第四篇") = JsNum.int 4
    ∧ parseTitleForSeason (some "某作品 Ⅲx") = JsNum.int 3
    ∧ parseTitleForSeason (some "某作品 Ⅲ") = JsNum.int 1
    ∧ parseTitleForSeason (some "刀剑神域 III") = JsNum.int 3
    ∧ parseTitleForSeason (some "海贼王") = JsNum.int 1 := by
  refine ⟨rfl, rfl, ?_, by decide, by decide, by decide, by decide, by decide,
    by decide, by decide, by decide, by decide, by decide, by decide, by decide,
    by decide, by decide⟩
  by_cases h : t = ""
  · simp [parseTitleForSeason, h]
  · simp [parseTitleForSeason, h, seasonPatternLoop_eq]

/-- Claim C8 counterexample: a 400 response whose JSON body has a
detail field holding the empty string — the field is present, so the
claim says the thrown message is that (empty) detail string, but the
code tests truthiness, the empty string is falsy, and the message is
the serialized JSON body instead. -/
theorem c8_counterexample :
    apiFetch ⟨400, BodyData.jsonBody (Json.obj [("detail", Json.str "")])⟩
      = FetchResult.thrown "\x7b\"detail\":\"\"\x7d"
    ∧ "\x7b\"detail\":\"\"\x7d" ≠ "" := ⟨rfl, by decide⟩

/-- Claim C8 amended: an accepted 2xx response resolves to the empty
object when the status is 204 or the body is empty; a non-ok non-401
response throws an Error whose message is the detail field of the JSON
body when that field is present and truthy (a falsy detail such as the
empty string falls back to the serialized body), otherwise the body
serialized as a string; when the body does not parse as JSON, or
parses to null (making errorData.detail throw), the second body read
in the catch rejects on the already-consumed stream and the message is
the fixed HTTP error! status: N string. -/
theorem c8_amended (r : HttpResponse) (fs : List (String × Json)) (d : Json) :
    (200 ≤ r.status → r.status ≤ 299 → (r.status = 204 ∨ bodyText r.body = "") →
        apiFetch r = FetchResult.success (Json.obj []))
    ∧ (¬(200 ≤ r.status ∧ r.status ≤ 299) → r.status ≠ 401 →
        apiFetch r = FetchResult.thrown (errorMessageFor r))
    ∧ (parseJsonBody r.body = some (Json.obj fs) → getField fs "detail" = some d →
        truthy d = true → errorMessageFor r = jsToMessage d)
    ∧ (parseJsonBody r.body = some (Json.obj fs) → getField fs "detail" = some d →
        truthy d = false → errorMessageFor r = stringify (Json.obj fs))
    ∧ (parseJsonBody r.body = some (Json.obj fs) → getField fs "detail" = none →
        errorMessageFor r = stringify (Json.obj fs))
    ∧ (parseJsonBody r.body = none →
        errorMessageFor r = "HTTP error! status: " ++ toString r.status)
    ∧ (parseJsonBody r.body = some Json.null →
        errorMessageFor r = "HTTP error! status: " ++ toString r.status)
    ∧ (∀ sd : String, jsToMessage (Json.str sd) = sd) := by
  refine ⟨?_, ?_, ?_, ?_, ?_, ?_, ?_, fun _ => rfl⟩
  · intro h1 h2 h3
    unfold apiFetch
    rw [if_neg (show ¬ r.status = 401 by omega),
      if_neg (not_not_intro ⟨h1, h2⟩)]
    cases h3 with
    | inl h => rw [if_pos h]
    | inr h =>
      by_cases h204 : r.status = 204
      · rw [if_pos h204]
      · rw [if_neg h204, if_pos h]
  · intro h1 h2
    unfold apiFetch
    rw [if_neg h2, if_pos h1]
  · intro hp hd ht
    simp [errorMessageFor, hp, hd, ht]
  · intro hp hd ht
    simp [errorMessageFor, hp, hd, ht]
  · intro hp hd
    simp [errorMessageFor, hp, hd]
  · intro hp
    simp [errorMessageFor, hp]
  · intro hp
    simp [errorMessageFor, hp]

theorem c8_witness :
    apiFetch ⟨204, BodyData.rawBody ""⟩ = FetchResult.success (Json.obj []) :=
  (c8_amended ⟨204, BodyData.rawBody ""⟩ [] Json.null).1 (by decide) (by decide)
    (Or.inl rfl)

/-- Per-index characterization of the save payload, generalized over
the starting index of the enumeration. -/
theorem save_enumFrom_spec (lis : List SourceLi) :
    ∀ k : Nat,
      (((List.enumFrom k lis).map
          (fun p => (⟨p.2.providerName, p.2.isEnabled == "true", p.1 + 1⟩ : ScraperSetting))).map
            (fun e => e.displayOrder) = List.range' (k + 1) lis.length)
      ∧ (((List.enumFrom k lis).map
          (fun p => (⟨p.2.providerName, p.2.isEnabled == "true", p.1 + 1⟩ : ScraperSetting))).map
            (fun e => e.isEnabled) = lis.map (fun li => li.isEnabled == "true"))
      ∧ (((List.enumFrom k lis).map
          (fun p => (⟨p.2.providerName, p.2.isEnabled == "true", p.1 + 1⟩ : ScraperSetting))).map
            (fun e => e.providerName) = lis.map (fun li => li.providerName)) := by
  induction lis with
  | nil => intro k; exact ⟨rfl, rfl, rfl⟩
  | cons a rest ih =>
    intro k
    obtain ⟨ih1, ih2, ih3⟩ := ih (k + 1)
    refine ⟨?_, ?_, ?_⟩ <;>
      simp [List.enumFrom_cons, List.range'_succ, ih1, ih2, ih3]

/-- Every swap of adjacent positions is a permutation. -/
theorem swapAdjacent_perm {α : Type} : ∀ (i : Nat) (l : List α),
    (swapAdjacent i l).Perm l := by
  intro i
  induction i with
  | zero =>
    intro l
    match l with
    | [] => exact List.Perm.refl _
    | [a] => exact List.Perm.refl _
    | a :: b :: t => exact List.Perm.swap a b t
  | succ n ih =>
    intro l
    match l with
    | [] => exact List.Perm.refl _
    | a :: t => exact (ih t).cons a

/-- Case analysis of the body of a move with a selected index. -/
theorem moveBranch_cases (direction : String) (lis : List SourceLi) (i : Nat) :
    (if direction = "up" then if i = 0 then lis else swapAdjacent (i - 1) lis
     else if direction = "down" then
       if i + 1 < lis.length then swapAdjacent i lis else lis
     else lis) = lis
    ∨ ∃ j, (if direction = "up" then if i = 0 then lis else swapAdjacent (i - 1) lis
     else if direction = "down" then
       if i + 1 < lis.length then swapAdjacent i lis else lis
     else lis) = swapAdjacent j lis := by
  split_ifs with h1 h2 h3 h4
  · exact Or.inl rfl
  · exact Or.inr ⟨i - 1, rfl⟩
  · exact Or.inr ⟨i, rfl⟩
  · exact Or.inl rfl
  · exact Or.inl rfl

/-- A move operation either does nothing or swaps one adjacent pair. -/
theorem handleMove_cases (direction : String) (lis : List SourceLi) :
    handleMoveDanmakuSource direction lis = lis
    ∨ ∃ i, handleMoveDanmakuSource direction lis = swapAdjacent i lis := by
  unfold handleMoveDanmakuSource
  cases findSelectedIdx lis with
  | none => exact Or.inl rfl
  | some i => exact moveBranch_cases direction lis i

/-- Claim C9: the saved danmaku-source payload lists display_order
values 1..n following the on-screen positions exactly, with is_enabled
true iff the stored dataset flag is the string true and provider names
in list order; and each move operation is either a no-op or a swap of
one adjacent pair, so every move preserves the multiset of provider
names. -/
theorem c9_claim (lis : List SourceLi) (direction : String) :
    ((handleSaveDanmakuSources lis).map (fun e => e.displayOrder)
        = List.range' 1 lis.length)
    ∧ ((handleSaveDanmakuSources lis).map (fun e => e.isEnabled)
        = lis.map (fun li => li.isEnabled == "true"))
    ∧ ((handleSaveDanmakuSources lis).map (fun e => e.providerName)
        = lis.map (fun li => li.providerName))
    ∧ (handleMoveDanmakuSource direction lis = lis
        ∨ ∃ i, handleMoveDanmakuSource direction lis = swapAdjacent i lis)
    ∧ ((handleMoveDanmakuSource direction lis).map (fun li => li.providerName)).Perm
        (lis.map (fun li => li.providerName)) := by
  obtain ⟨h1, h2, h3⟩ := save_enumFrom_spec lis 0
  refine ⟨?_, ?_, ?_, handleMove_cases direction lis, ?_⟩
  · simpa [handleSaveDanmakuSources, List.enum] using h1
  · simpa [handleSaveDanmakuSources, List.enum] using h2
  · simpa [handleSaveDanmakuSources, List.enum] using h3
  · rcases handleMove_cases direction lis with h | ⟨i, h⟩
    · rw [h]
    · rw [h]
      exact (swapAdjacent_perm i lis).map _

/-- Membership form of List.contains under a lawful equality test. -/
theorem containsIffMem {α : Type} [BEq α] [LawfulBEq α] {l : List α} {a : α} :
    l.contains a = true ↔ a ∈ l :=
  List.elem_iff

/-- An in-place update rewrites status, description and progress from
the task and keeps the id, the title and the selection state. -/
theorem updateExisting_fields (tk : TaskData) (d : TaskItemData) :
    (updateExisting tk d).taskId = d.taskId
    ∧ (updateExisting tk d).title = d.title
    ∧ (updateExisting tk d).selected = d.selected
    ∧ (updateExisting tk d).status = tk.status
    ∧ (updateExisting tk d).description = tk.description
    ∧ (updateExisting tk d).progressWidth = tk.progress := by
  by_cases h : d.status ≠ tk.status
  · simp [updateExisting, h]
  · have he : d.status = tk.status := not_not.mp h
    simp [updateExisting, he]

/-- Updating by reference keeps the element identity. -/
theorem updateRef_ref (tk : TaskData) (r : Nat) (li : DomLi) :
    (updateRef tk r li).ref = li.ref := by
  obtain ⟨r0, k⟩ := li
  cases k <;> simp [updateRef] <;> split_ifs <;> rfl

/-- Updating by reference keeps the task id of the element. -/
theorem liTaskId?_updateRef (tk : TaskData) (r : Nat) (li : DomLi) :
    liTaskId? (updateRef tk r li) = liTaskId? li := by
  obtain ⟨r0, k⟩ := li
  cases k with
  | placeholderLi s =>
    simp only [updateRef]
    split_ifs <;> rfl
  | taskItemLi d =>
    simp only [updateRef]
    split_ifs with h
    · simp [liTaskId?, (updateExisting_fields tk d).1]
    · rfl

/-- Applying the pending updates keeps the element identity. -/
theorem applyUpdates_ref (entries : List (String × Nat)) (ts : List TaskData) (li : DomLi) :
    (applyUpdates entries ts li).ref = li.ref := by
  unfold applyUpdates
  cases ts.find? (fun t => mapGet entries t.taskId == some li.ref) with
  | none => rfl
  | some t => exact updateRef_ref t li.ref li

/-- Applying the pending updates keeps the task id. -/
theorem liTaskId?_applyUpdates (entries : List (String × Nat)) (ts : List TaskData) (li : DomLi) :
    liTaskId? (applyUpdates entries ts li) = liTaskId? li := by
  unfold applyUpdates
  cases ts.find? (fun t => mapGet entries t.taskId == some li.ref) with
  | none => rfl
  | some t => exact liTaskId?_updateRef t li.ref li

/-- A successful map lookup returns one of the entries. -/
theorem mapGet_mem {entries : List (String × Nat)} {k : String} {r : Nat}
    (h : mapGet entries k = some r) : (k, r) ∈ entries := by
  unfold mapGet at h
  cases hf : entries.reverse.find? (fun e => e.1 == k) with
  | none => rw [hf] at h; simp at h
  | some p =>
    rw [hf] at h
    simp at h
    have hm : p ∈ entries := List.mem_reverse.mp (List.mem_of_find?_eq_some hf)
    have hk : p.1 = k := by simpa using List.find?_some hf
    have hpr : (k, r) = p := by rw [← hk, ← h]
    rw [hpr]
    exact hm

/-- Looked-up element references respect an upper bound on the entry
references. -/
theorem mapGet_lt {entries : List (String × Nat)} {fr : Nat}
    (hlt : ∀ p ∈ entries, p.2 < fr) {k : String} {r : Nat}
    (h : mapGet entries k = some r) : r < fr :=
  hlt (k, r) (mapGet_mem h)

/-- A lookup fails exactly when no entry has the key. -/
theorem mapGet_eq_none_iff {entries : List (String × Nat)} {k : String} :
    mapGet entries k = none ↔ ∀ p ∈ entries, p.1 ≠ k := by
  unfold mapGet
  constructor
  · intro h p hp
    cases hf : entries.reverse.find? (fun e => e.1 == k) with
    | some q => rw [hf] at h; simp at h
    | none =>
      have := List.find?_eq_none.mp hf p (List.mem_reverse.mpr hp)
      simpa using this
  · intro h
    have hf : entries.reverse.find? (fun e => e.1 == k) = none := by
      apply List.find?_eq_none.mpr
      intro p hp
      simpa using h p (List.mem_reverse.mp hp)
    rw [hf]
    rfl

/-- The element map holds one entry per task item of the list. -/
theorem mem_mapEntries {ul : List DomLi} {k : String} {r : Nat} :
    (k, r) ∈ mapEntries ul ↔ ∃ li ∈ ul, liTaskId? li = some k ∧ li.ref = r := by
  unfold mapEntries
  rw [List.mem_filterMap]
  constructor
  · rintro ⟨li, hmem, hf⟩
    cases hid : liTaskId? li with
    | none => rw [hid] at hf; simp at hf
    | some i =>
      rw [hid] at hf
      simp at hf
      obtain ⟨h1, h2⟩ := hf
      exact ⟨li, hmem, by rw [hid, h1], h2⟩
  · rintro ⟨li, hmem, hid, hr⟩
    exact ⟨li, hmem, by rw [hid]; simp [hr]⟩

/-- The keys of the element map are the task ids, in document order. -/
theorem mapEntries_keys (ul : List DomLi) :
    (mapEntries ul).map (fun p => p.1) = ulIds ul := by
  unfold mapEntries ulIds
  rw [List.map_filterMap]
  congr 1
  funext li
  cases liTaskId? li <;> rfl

/-- Membership in the deduplicated key list of the element map. -/
theorem mem_mapKeys {entries : List (String × Nat)} {k : String} :
    k ∈ mapKeys entries ↔ ∃ p ∈ entries, p.1 = k := by
  induction entries with
  | nil => simp [mapKeys]
  | cons p rest ih =>
    simp only [mapKeys]
    constructor
    · intro h
      rcases List.mem_cons.mp h with h1 | h2
      · exact ⟨p, List.mem_cons_self _ _, h1.symm⟩
      · rcases ih.mp (List.mem_filter.mp h2).1 with ⟨q, hq, hqk⟩
        exact ⟨q, List.mem_cons_of_mem _ hq, hqk⟩
    · rintro ⟨q, hq, hqk⟩
      rcases List.mem_cons.mp hq with h1 | h2
      · rw [← hqk, h1]
        exact List.mem_cons_self _ _
      · by_cases hkp : k = p.1
        · rw [hkp]
          exact List.mem_cons_self _ _
        · exact List.mem_cons_of_mem _
            (List.mem_filter.mpr ⟨ih.mpr ⟨q, h2, hqk⟩, by simpa using hkp⟩)

/-- With no duplicate ids, looking up the id of a present task item
finds exactly that element. -/
theorem mapGet_mapEntries_of_mem :
    ∀ (ul : List DomLi), (ulIds ul).Nodup →
      ∀ li ∈ ul, ∀ k, liTaskId? li = some k →
        mapGet (mapEntries ul) k = some li.ref := by
  intro ul
  induction ul with
  | nil =>
    intro _ li h
    simp at h
  | cons a rest ih =>
    intro hnd li hmem k hid
    cases hida : liTaskId? a with
    | none =>
      have hnd' : (ulIds rest).Nodup := by
        simpa [ulIds, List.filterMap_cons, hida] using hnd
      rcases List.mem_cons.mp hmem with rfl | hmem2
      · rw [hida] at hid
        cases hid
      · have := ih hnd' li hmem2 k hid
        simpa [mapEntries, List.filterMap_cons, hida] using this
    | some i =>
      have hkeys : ulIds (a :: rest) = i :: ulIds rest := by
        simp [ulIds, List.filterMap_cons, hida]
      rw [hkeys] at hnd
      obtain ⟨hnotin, hnd'⟩ := List.nodup_cons.mp hnd
      have hentries : mapEntries (a :: rest) = (i, a.ref) :: mapEntries rest := by
        simp [mapEntries, List.filterMap_cons, hida]
      rcases List.mem_cons.mp hmem with rfl | hmem2
      · rw [hida] at hid
        have hk : i = k := Option.some.inj hid
        rw [← hk]
        have hnone : ∀ p ∈ mapEntries rest, p.1 ≠ i := by
          intro p hp hpk
          apply hnotin
          have hmm2 := List.mem_map_of_mem (fun q => q.1) hp
          rw [mapEntries_keys] at hmm2
          simpa [hpk] using hmm2
        rw [hentries]
        unfold mapGet
        rw [List.reverse_cons, List.find?_append]
        have h1 : (mapEntries rest).reverse.find? (fun e => e.1 == i) = none := by
          apply List.find?_eq_none.mpr
          intro p hp
          simpa using hnone p (List.mem_reverse.mp hp)
        rw [h1]
        simp
      · have hres := ih hnd' li hmem2 k hid
        rw [hentries]
        unfold mapGet at hres ⊢
        rw [List.reverse_cons, List.find?_append]
        cases hf : (mapEntries rest).reverse.find? (fun e => e.1 == k) with
        | none =>
          rw [hf] at hres
          simp at hres
        | some p =>
          rw [hf] at hres
          simpa using hres

/-- With no duplicate references, two successful lookups hitting the
same element reference come from the same key. -/
theorem mapGet_inj {ul : List DomLi}
    (hrefs : (ul.map (fun li => li.ref)).Nodup) :
    ∀ k1 k2 r, mapGet (mapEntries ul) k1 = some r →
      mapGet (mapEntries ul) k2 = some r → k1 = k2 := by
  intro k1 k2 r h1 h2
  rcases mem_mapEntries.mp (mapGet_mem h1) with ⟨li1, hm1, hid1, hr1⟩
  rcases mem_mapEntries.mp (mapGet_mem h2) with ⟨li2, hm2, hid2, hr2⟩
  have he : li1 = li2 := List.inj_on_of_nodup_map hrefs hm1 hm2 (by rw [hr1, hr2])
  rw [he] at hid1
  rw [hid1] at hid2
  exact Option.some.inj hid2

/-- A failed lookup for a task id means the id is absent from the
list. -/
theorem mapGet_isNone_eq (ul : List DomLi) (k : String) :
    (mapGet (mapEntries ul) k).isNone = !((ulIds ul).contains k) := by
  cases hg : mapGet (mapEntries ul) k with
  | some r =>
    have hmem : (k, r) ∈ mapEntries ul := mapGet_mem hg
    have hk : k ∈ ulIds ul := by
      have hmm2 := List.mem_map_of_mem (fun p => p.1) hmem
      rw [mapEntries_keys] at hmm2
      simpa using hmm2
    have hc : (ulIds ul).contains k = true := containsIffMem.mpr hk
    rw [hc]
    rfl
  | none =>
    have hn := mapGet_eq_none_iff.mp hg
    have hk : k ∉ ulIds ul := by
      intro hmem
      rw [← mapEntries_keys] at hmem
      rcases List.mem_map.mp hmem with ⟨p, hp, hpk⟩
      exact hn p hp (by simpa using hpk)
    have hc : (ulIds ul).contains k = false := by
      cases hcc : (ulIds ul).contains k
      · rfl
      · exact absurd (containsIffMem.mp hcc) hk
    rw [hc]
    rfl

/-- Under distinct references and ids, the reference-based removal of
renderTasks keeps exactly the task items whose id is still in the
input (and every non-task child). -/
theorem removal_filter_eq (ul1 : List DomLi) (incoming : List String)
    (hrefs : (ul1.map (fun li => li.ref)).Nodup)
    (hids : (ulIds ul1).Nodup) :
    ul1.filter (fun li =>
      !(((mapKeys (mapEntries ul1)).filterMap
          (fun k => if incoming.contains k then none
                    else mapGet (mapEntries ul1) k)).contains li.ref))
    = ul1.filter (fun li =>
        match liTaskId? li with
        | some i => incoming.contains i
        | none => true) := by
  apply List.filter_congr
  intro li hmem
  cases hid : liTaskId? li with
  | none =>
    have hnr : ∀ k, mapGet (mapEntries ul1) k ≠ some li.ref := by
      intro k hk
      rcases mem_mapEntries.mp (mapGet_mem hk) with ⟨li2, hm2, hid2, hr2⟩
      have he : li2 = li := List.inj_on_of_nodup_map hrefs hm2 hmem hr2
      rw [he, hid] at hid2
      exact Option.noConfusion hid2
    have hcf : (((mapKeys (mapEntries ul1)).filterMap
        (fun k => if incoming.contains k then none
                  else mapGet (mapEntries ul1) k)).contains li.ref) = false := by
      cases hc : (((mapKeys (mapEntries ul1)).filterMap
          (fun k => if incoming.contains k then none
                    else mapGet (mapEntries ul1) k)).contains li.ref)
      · rfl
      · exfalso
        rcases List.mem_filterMap.mp (containsIffMem.mp hc) with ⟨k, _, hfk⟩
        by_cases hin : incoming.contains k = true
        · rw [if_pos hin] at hfk
          exact Option.noConfusion hfk
        · rw [if_neg hin] at hfk
          exact hnr k hfk
    simp only [hcf, hid]
    rfl
  | some i =>
    by_cases hin : incoming.contains i = true
    · have hnr : ∀ k, mapGet (mapEntries ul1) k = some li.ref →
          incoming.contains k = true := by
        intro k hk
        rcases mem_mapEntries.mp (mapGet_mem hk) with ⟨li2, hm2, hid2, hr2⟩
        have he : li2 = li := List.inj_on_of_nodup_map hrefs hm2 hmem hr2
        rw [he, hid] at hid2
        have hik : i = k := Option.some.inj hid2
        rw [← hik]
        exact hin
      have hcf : (((mapKeys (mapEntries ul1)).filterMap
          (fun k => if incoming.contains k then none
                    else mapGet (mapEntries ul1) k)).contains li.ref) = false := by
        cases hc : (((mapKeys (mapEntries ul1)).filterMap
            (fun k => if incoming.contains k then none
                      else mapGet (mapEntries ul1) k)).contains li.ref)
        · rfl
        · exfalso
          rcases List.mem_filterMap.mp (containsIffMem.mp hc) with ⟨k, _, hfk⟩
          by_cases hin2 : incoming.contains k = true
          · rw [if_pos hin2] at hfk
            exact Option.noConfusion hfk
          · rw [if_neg hin2] at hfk
            exact hin2 (hnr k hfk)
      simp only [hcf, hid, hin]
      rfl
    · have hinf : incoming.contains i = false := by
        cases hcc : incoming.contains i
        · rfl
        · exact absurd hcc hin
      have hget : mapGet (mapEntries ul1) i = some li.ref :=
        mapGet_mapEntries_of_mem ul1 hids li hmem i hid
      have hkeys : i ∈ mapKeys (mapEntries ul1) :=
        mem_mapKeys.mpr ⟨(i, li.ref), mapGet_mem hget, rfl⟩
      have hmemr : li.ref ∈ (mapKeys (mapEntries ul1)).filterMap
          (fun k => if incoming.contains k then none
                    else mapGet (mapEntries ul1) k) :=
        List.mem_filterMap.mpr ⟨i, hkeys, by rw [if_neg hin]; exact hget⟩
      have hct : (((mapKeys (mapEntries ul1)).filterMap
          (fun k => if incoming.contains k then none
                    else mapGet (mapEntries ul1) k)).contains li.ref) = true :=
        containsIffMem.mpr hmemr
      simp only [hct, hid, hinf]
      rfl

/-- The forEach loop of renderTasks in closed form: the pending update
for each surviving element is applied in place and one fresh element is
appended per task whose id is absent from the element map, in input
order with consecutive identities. -/
theorem foldl_renderStep_eq (entries : List (String × Nat)) :
    ∀ (ts : List TaskData) (dom : List DomLi) (fr : Nat),
      (ts.map (fun t => t.taskId)).Nodup →
      (∀ p ∈ entries, p.2 < fr) →
      (∀ k1 k2 r, mapGet entries k1 = some r → mapGet entries k2 = some r → k1 = k2) →
      ts.foldl (renderStep entries) (dom, fr)
        = (dom.map (applyUpdates entries ts)
             ++ appendNew fr (ts.filter (fun t => (mapGet entries t.taskId).isNone)),
           fr + (ts.filter (fun t => (mapGet entries t.taskId).isNone)).length) := by
  intro ts
  induction ts with
  | nil =>
    intro dom fr _ _ _
    have hid0 : applyUpdates entries ([] : List TaskData) = fun li => li := rfl
    simp [hid0, appendNew]
  | cons t ts0 ih =>
    intro dom fr hnd hlt hinj
    rw [List.map_cons, List.nodup_cons] at hnd
    obtain ⟨hnotin, hnd0⟩ := hnd
    rw [List.foldl_cons]
    cases hg : mapGet entries t.taskId with
    | some r =>
      have hstep : renderStep entries (dom, fr) t = (dom.map (updateRef t r), fr) := by
        simp [renderStep, hg]
      rw [hstep, ih (dom.map (updateRef t r)) fr hnd0 hlt hinj]
      have hfil : (t :: ts0).filter (fun u => (mapGet entries u.taskId).isNone)
          = ts0.filter (fun u => (mapGet entries u.taskId).isNone) := by
        simp [List.filter_cons, hg]
      rw [hfil]
      have hpoint : ∀ li, applyUpdates entries ts0 (updateRef t r li)
          = applyUpdates entries (t :: ts0) li := by
        intro li
        by_cases he : li.ref = r
        · have hfind : List.find? (fun u => mapGet entries u.taskId == some li.ref)
              (t :: ts0) = some t := by
            apply List.find?_cons_of_pos
            simp [hg, he]
          have hfind2 : List.find?
              (fun u => mapGet entries u.taskId == some (updateRef t r li).ref) ts0 = none := by
            rw [updateRef_ref]
            apply List.find?_eq_none.mpr
            intro u hu hpred
            simp only [beq_iff_eq] at hpred
            rw [he] at hpred
            have hte : u.taskId = t.taskId := hinj _ _ _ hpred hg
            exact hnotin (hte ▸ List.mem_map_of_mem _ hu)
          unfold applyUpdates
          rw [hfind, hfind2, he]
        · have hupd : updateRef t r li = li := by
            unfold updateRef
            rw [if_neg he]
          rw [hupd]
          unfold applyUpdates
          have hhead : List.find? (fun u => mapGet entries u.taskId == some li.ref)
              (t :: ts0) = List.find? (fun u => mapGet entries u.taskId == some li.ref) ts0 := by
            apply List.find?_cons_of_neg
            simp only [hg, beq_iff_eq]
            intro hh
            exact he (Option.some.inj hh).symm
          rw [hhead]
      rw [List.map_map,
        (funext hpoint :
          applyUpdates entries ts0 ∘ updateRef t r = applyUpdates entries (t :: ts0))]
    | none =>
      have hstep : renderStep entries (dom, fr) t = (dom ++ [newTaskLi fr t], fr + 1) := by
        simp [renderStep, hg]
      have hlt1 : ∀ p ∈ entries, p.2 < fr + 1 := fun p hp => Nat.lt_succ_of_lt (hlt p hp)
      rw [hstep, ih (dom ++ [newTaskLi fr t]) (fr + 1) hnd0 hlt1 hinj]
      have hfil : (t :: ts0).filter (fun u => (mapGet entries u.taskId).isNone)
          = t :: ts0.filter (fun u => (mapGet entries u.taskId).isNone) := by
        simp [List.filter_cons, hg]
      rw [hfil]
      have hnew : applyUpdates entries ts0 (newTaskLi fr t) = newTaskLi fr t := by
        unfold applyUpdates
        have hfn : List.find?
            (fun u => mapGet entries u.taskId == some (newTaskLi fr t).ref) ts0 = none := by
          apply List.find?_eq_none.mpr
          intro u hu hpred
          simp only [beq_iff_eq] at hpred
          have hlt2 := mapGet_lt hlt hpred
          simp [newTaskLi] at hlt2
        rw [hfn]
      have hskip : ∀ li, applyUpdates entries (t :: ts0) li = applyUpdates entries ts0 li := by
        intro li
        unfold applyUpdates
        have hhead : List.find? (fun u => mapGet entries u.taskId == some li.ref)
            (t :: ts0) = List.find? (fun u => mapGet entries u.taskId == some li.ref) ts0 := by
          apply List.find?_cons_of_neg
          simp [hg]
        rw [hhead]
      simp only [Prod.mk.injEq]
      refine ⟨?_, by simp only [List.length_cons]; omega⟩
      rw [List.map_append,
        (funext hskip :
          applyUpdates entries (t :: ts0) = applyUpdates entries ts0)]
      simp [hnew, appendNew]

/-- The placeholder check either clears the list or leaves it as is. -/
theorem clearIfPlaceholder_cases (ul : List DomLi) :
    clearIfPlaceholder ul = [] ∨ clearIfPlaceholder ul = ul := by
  unfold clearIfPlaceholder
  split_ifs
  · exact Or.inl rfl
  · exact Or.inr rfl

/-- Task ids distribute over list concatenation. -/
theorem ulIds_append (a b : List DomLi) : ulIds (a ++ b) = ulIds a ++ ulIds b := by
  simp [ulIds, List.filterMap_append]

/-- Applying pending updates changes no task id of the list. -/
theorem ulIds_map_applyUpdates (entries : List (String × Nat)) (ts : List TaskData)
    (dom : List DomLi) :
    ulIds (dom.map (applyUpdates entries ts)) = ulIds dom := by
  unfold ulIds
  rw [List.filterMap_map]
  congr 1
  funext li
  exact liTaskId?_applyUpdates entries ts li

/-- The appended fresh elements carry exactly the ids of their tasks,
in order. -/
theorem ulIds_appendNew (ts : List TaskData) :
    ∀ r, ulIds (appendNew r ts) = ts.map (fun t => t.taskId) := by
  induction ts with
  | nil => intro r; rfl
  | cons t rest ih =>
    intro r
    have hnext := ih (r + 1)
    simp only [appendNew, ulIds, List.filterMap_cons, List.map_cons] at hnext ⊢
    simpa [show liTaskId? (newTaskLi r t) = some t.taskId from rfl] using hnext

/-- The ids of a filtered list are the ids that survive the filter. -/
theorem ulIds_filter_sublist (p : DomLi → Bool) (ul : List DomLi) :
    (ulIds (ul.filter p)).Sublist (ulIds ul) := by
  unfold ulIds
  exact List.Sublist.filterMap _ (List.filter_sublist ul)

/-- Membership of an id among the kept elements. -/
theorem mem_ulIds_filter (ul1 : List DomLi) (incoming : List String) (id0 : String) :
    id0 ∈ ulIds (ul1.filter (fun li =>
        match liTaskId? li with
        | some i => incoming.contains i
        | none => true))
    ↔ id0 ∈ ulIds ul1 ∧ incoming.contains id0 = true := by
  unfold ulIds
  constructor
  · intro h
    rcases List.mem_filterMap.mp h with ⟨li, hmem, hid⟩
    have hf := List.mem_filter.mp hmem
    refine ⟨List.mem_filterMap.mpr ⟨li, hf.1, hid⟩, ?_⟩
    have hk := hf.2
    simp only [hid] at hk
    exact hk
  · rintro ⟨hmem, hin⟩
    rcases List.mem_filterMap.mp hmem with ⟨li, hmem2, hid⟩
    refine List.mem_filterMap.mpr ⟨li, List.mem_filter.mpr ⟨hmem2, ?_⟩, hid⟩
    simp only [hid]
    exact hin

/-- Claim C4 counterexample: rendering a task list that repeats one
task id into an empty DOM list appends one element per occurrence, so a
single new task id gets two elements — the claim that new ids get
exactly one new element (and that the resulting id set matches without
duplicates) fails on duplicate inputs. -/
theorem c4_counterexample :
    (renderTasks [] 0 [⟨"a", "T", "运行中", "d", 10⟩, ⟨"a", "T", "运行中", "d", 10⟩]).1
      = [newTaskLi 0 ⟨"a", "T", "运行中", "d", 10⟩, newTaskLi 1 ⟨"a", "T", "运行中", "d", 10⟩]
    ∧ ulIds (renderTasks [] 0
        [⟨"a", "T", "运行中", "d", 10⟩, ⟨"a", "T", "运行中", "d", 10⟩]).1 = ["a", "a"]
    ∧ ¬ (ulIds (renderTasks [] 0
        [⟨"a", "T", "运行中", "d", 10⟩, ⟨"a", "T", "运行中", "d", 10⟩]).1).Nodup := by
  refine ⟨by decide, by decide, by decide⟩

/-- Claim C4 amended: for inputs without duplicate task ids, rendering
into a task list whose elements have distinct identities and distinct
ids (the invariant the renderer itself maintains) gives exactly: the
placeholder for an empty input; otherwise the surviving elements —
those whose id is still incoming — updated in place in document order,
followed by one fresh element per new task id in input order; hence
the set of rendered ids equals the set of incoming ids, without
duplicates.  In-place updates rewrite only status, description and
progress (bar), keeping the element identity, title and selection. -/
theorem c4_amended (ul : List DomLi) (fresh : Nat) (tasks : List TaskData)
    (hrefs : (ul.map (fun li => li.ref)).Nodup)
    (hids : (ulIds ul).Nodup)
    (hfresh : ∀ li ∈ ul, li.ref < fresh)
    (ht : (tasks.map (fun t => t.taskId)).Nodup) :
    (tasks = [] →
      (renderTasks ul fresh tasks).1
        = [⟨fresh, LiKind.placeholderLi "没有符合条件的任务。"⟩])
    ∧ (tasks ≠ [] →
        (renderTasks ul fresh tasks).1
          = ((clearIfPlaceholder ul).filter (fun li =>
                match liTaskId? li with
                | some i => (tasks.map (fun t => t.taskId)).contains i
                | none => true)).map
              (applyUpdates (mapEntries (clearIfPlaceholder ul)) tasks)
            ++ appendNew fresh (tasks.filter (fun t =>
                !((ulIds (clearIfPlaceholder ul)).contains t.taskId))))
    ∧ (tasks ≠ [] → ∀ id0, id0 ∈ ulIds (renderTasks ul fresh tasks).1
          ↔ id0 ∈ tasks.map (fun t => t.taskId))
    ∧ (ulIds (renderTasks ul fresh tasks).1).Nodup
    ∧ (∀ tk d, (updateExisting tk d).taskId = d.taskId
        ∧ (updateExisting tk d).title = d.title
        ∧ (updateExisting tk d).selected = d.selected
        ∧ (updateExisting tk d).status = tk.status
        ∧ (updateExisting tk d).description = tk.description
        ∧ (updateExisting tk d).progressWidth = tk.progress) := by
  have hrefs1 : ((clearIfPlaceholder ul).map (fun li => li.ref)).Nodup := by
    rcases clearIfPlaceholder_cases ul with h | h
    · simp [h]
    · rw [h]; exact hrefs
  have hids1 : (ulIds (clearIfPlaceholder ul)).Nodup := by
    rcases clearIfPlaceholder_cases ul with h | h
    · simp [h, ulIds]
    · rw [h]; exact hids
  have hfresh1 : ∀ li ∈ clearIfPlaceholder ul, li.ref < fresh := by
    rcases clearIfPlaceholder_cases ul with h | h
    · simp [h]
    · rw [h]; exact hfresh
  have hentlt : ∀ p ∈ mapEntries (clearIfPlaceholder ul), p.2 < fresh := by
    intro p hp
    obtain ⟨k, r⟩ := p
    rcases mem_mapEntries.mp hp with ⟨li, hm, _, hr⟩
    rw [← hr]
    exact hfresh1 li hm
  have hinj := mapGet_inj hrefs1
  have hfc : tasks.filter
        (fun t => (mapGet (mapEntries (clearIfPlaceholder ul)) t.taskId).isNone)
      = tasks.filter (fun t => !((ulIds (clearIfPlaceholder ul)).contains t.taskId)) :=
    List.filter_congr (fun t _ => mapGet_isNone_eq (clearIfPlaceholder ul) t.taskId)
  have hmain : tasks ≠ [] →
      renderTasks ul fresh tasks
        = (((clearIfPlaceholder ul).filter (fun li =>
              match liTaskId? li with
              | some i => (tasks.map (fun t => t.taskId)).contains i
              | none => true)).map
            (applyUpdates (mapEntries (clearIfPlaceholder ul)) tasks)
          ++ appendNew fresh (tasks.filter (fun t =>
              !((ulIds (clearIfPlaceholder ul)).contains t.taskId))),
          fresh + (tasks.filter (fun t =>
              !((ulIds (clearIfPlaceholder ul)).contains t.taskId))).length) := by
    intro hne
    have hlen : ¬ tasks.length = 0 := by simpa [List.length_eq_zero] using hne
    have hren : renderTasks ul fresh tasks
        = tasks.foldl (renderStep (mapEntries (clearIfPlaceholder ul)))
            ((clearIfPlaceholder ul).filter (fun li =>
              !(((mapKeys (mapEntries (clearIfPlaceholder ul))).filterMap
                  (fun k => if (tasks.map (fun t => t.taskId)).contains k then none
                            else mapGet (mapEntries (clearIfPlaceholder ul)) k)).contains li.ref)),
             fresh) := by
      unfold renderTasks
      rw [if_neg hlen]
    rw [hren,
      foldl_renderStep_eq (mapEntries (clearIfPlaceholder ul)) tasks _ fresh ht hentlt hinj,
      removal_filter_eq (clearIfPlaceholder ul) (tasks.map (fun t => t.taskId)) hrefs1 hids1,
      hfc]
  refine ⟨?_, ?_, ?_, ?_, fun tk d => updateExisting_fields tk d⟩
  · intro h
    subst h
    rfl
  · intro hne
    rw [hmain hne]
  · intro hne id0
    rw [hmain hne, ulIds_append, ulIds_map_applyUpdates, ulIds_appendNew, List.mem_append]
    constructor
    · rintro (hk | hnw)
      · exact containsIffMem.mp (mem_ulIds_filter _ _ _ |>.mp hk).2
      · rcases List.mem_map.mp hnw with ⟨t, htm, rfl⟩
        exact List.mem_map_of_mem _ (List.mem_filter.mp htm).1
    · intro hin
      by_cases hidin : id0 ∈ ulIds (clearIfPlaceholder ul)
      · exact Or.inl ((mem_ulIds_filter _ _ _).mpr ⟨hidin, containsIffMem.mpr hin⟩)
      · rcases List.mem_map.mp hin with ⟨t, htm, rfl⟩
        refine Or.inr (List.mem_map_of_mem _ (List.mem_filter.mpr ⟨htm, ?_⟩))
        cases hcc : (ulIds (clearIfPlaceholder ul)).contains t.taskId
        · rfl
        · exact absurd (containsIffMem.mp hcc) hidin
  · by_cases hne : tasks = []
    · subst hne
      have hpl : (renderTasks ul fresh ([] : List TaskData)).1
          = [⟨fresh, LiKind.placeholderLi "没有符合条件的任务。"⟩] := rfl
      rw [hpl]
      simp [ulIds, liTaskId?]
    · rw [hmain hne, ulIds_append, ulIds_map_applyUpdates, ulIds_appendNew]
      apply List.Nodup.append
      · exact List.Nodup.sublist (ulIds_filter_sublist _ _) hids1
      · exact List.Nodup.sublist
          (List.Sublist.map _ (List.filter_sublist tasks)) ht
      · intro a ha hb
        have hidin : a ∈ ulIds (clearIfPlaceholder ul) :=
          ((mem_ulIds_filter _ _ _).mp ha).1
        rcases List.mem_map.mp hb with ⟨t, htm, rfl⟩
        have hq := (List.mem_filter.mp htm).2
        have hcc : (ulIds (clearIfPlaceholder ul)).contains t.taskId = false := by
          cases hccc : (ulIds (clearIfPlaceholder ul)).contains t.taskId
          · rfl
          · rw [hccc] at hq
            exact absurd hq (by decide)
        exact absurd (containsIffMem.mpr hidin) (by rw [hcc]; decide)

theorem c4_amended_witness :
    (([] : List TaskData) = [] →
      (renderTasks [] 0 ([] : List TaskData)).1
        = [⟨0, LiKind.placeholderLi "没有符合条件的任务。"⟩])
    ∧ (([] : List TaskData) ≠ [] →
        (renderTasks [] 0 ([] : List TaskData)).1
          = ((clearIfPlaceholder []).filter (fun li =>
                match liTaskId? li with
                | some i => (([] : List TaskData).map (fun t => t.taskId)).contains i
                | none => true)).map
              (applyUpdates (mapEntries (clearIfPlaceholder [])) [])
            ++ appendNew 0 (([] : List TaskData).filter (fun t =>
                !((ulIds (clearIfPlaceholder [])).contains t.taskId))))
    ∧ (([] : List TaskData) ≠ [] → ∀ id0,
        id0 ∈ ulIds (renderTasks [] 0 ([] : List TaskData)).1
          ↔ id0 ∈ ([] : List TaskData).map (fun t => t.taskId))
    ∧ (ulIds (renderTasks [] 0 ([] : List TaskData)).1).Nodup
    ∧ (∀ tk d, (updateExisting tk d).taskId = d.taskId
        ∧ (updateExisting tk d).title = d.title
        ∧ (updateExisting tk d).selected = d.selected
        ∧ (updateExisting tk d).status = tk.status
        ∧ (updateExisting tk d).description = tk.description
        ∧ (updateExisting tk d).progressWidth = tk.progress) :=
  c4_amended [] 0 [] (by decide) (by decide) (by simp) (by decide)
